import Mathlib

/-!
Shallow embedding of the Chronovisor converter (src/chronovisor.ts and the
build variants src/unnamed/part_000 .. part_003).  The embedding models the
JavaScript runtime values the program manipulates (an exact rational stands
in for the JS number where the program only performs exact decimal
arithmetic), and translates the core operations: `Map.convertTimestamp`,
`Map.getNestedValue`, `Map.convert`, `Map.convertCsv`, the `Chrono`
constructor and serializers, `ChronoSet.Jsonify` and
`ChronoSet.FindSuccessivePairs`.  Mutation of shared JavaScript objects is
made explicit: events are identified by their index into an object store,
and the `ChronoSet` arrays live in a small explicit heap so that array
aliasing (`chronos_backup = chronos`) is represented faithfully.
-/

namespace Chronovisor

/-- Exact rational number standing in for the JavaScript `number` values the
converter computes with.  All arithmetic the program performs on the values
exercised here (integer timestamps, `* 1000`, `* 0.0001`, subtraction) is
exact, so an exact rational reproduces the JS results.  `NaN` is represented
separately (`JsVal.vNan`). -/
structure JNum where
  num : Int
  den : Nat
  deriving DecidableEq, Repr

/-- Normalize a quotient of an integer by a natural number. -/
def JNum.normalize (n : Int) (d : Nat) : JNum :=
  let g := Nat.gcd n.natAbs d
  if g = 0 then ⟨0, 1⟩ else ⟨n / (g : Int), d / g⟩

def JNum.ofInt (n : Int) : JNum := ⟨n, 1⟩

instance : OfNat JNum n := ⟨JNum.ofInt n⟩

def JNum.add (a b : JNum) : JNum :=
  JNum.normalize (a.num * (b.den : Int) + b.num * (a.den : Int)) (a.den * b.den)

def JNum.sub (a b : JNum) : JNum :=
  JNum.normalize (a.num * (b.den : Int) - b.num * (a.den : Int)) (a.den * b.den)

def JNum.mul (a b : JNum) : JNum :=
  JNum.normalize (a.num * b.num) (a.den * b.den)

def JNum.div (a b : JNum) : JNum :=
  if b.num < 0 then JNum.normalize (-(a.num * (b.den : Int))) (a.den * b.num.natAbs)
  else JNum.normalize (a.num * (b.den : Int)) (a.den * b.num.natAbs)

/-- Rational equality by cross multiplication (used for the JS `===` on
numbers, which compares values, not representations). -/
def JNum.valEq (a b : JNum) : Bool :=
  a.num * (b.den : Int) == b.num * (a.den : Int)

/-- Truncation toward zero, as performed by the ECMAScript `TimeClip` /
`ToIntegerOrInfinity` operations when a number becomes a `Date` time value. -/
def JNum.trunc (a : JNum) : Int :=
  a.num / (a.den : Int)

/-- Decimal rendering of a rational: integers render like JS integers;
terminating decimals render with a decimal point; (unreachable in the
modelled runs) non-terminating quotients fall back to a fraction notation. -/
def JNum.render (a : JNum) : String :=
  if a.den = 1 then toString a.num
  else
    let sign := if a.num < 0 then "-" else ""
    let n := a.num.natAbs
    let rec findScale : Nat → Nat → Option Nat
      | _, 0 => none
      | k, fuel + 1 => if (10 ^ k) % a.den = 0 then some k else findScale (k + 1) fuel
    match findScale 1 30 with
    | some k =>
      let scaled := n * (10 ^ k) / a.den
      let intPart := scaled / 10 ^ k
      let fracPart := scaled % 10 ^ k
      let fracStr := toString fracPart
      let padded := String.mk (List.replicate (k - fracStr.length) '0') ++ fracStr
      let trimmed := String.mk (padded.data.reverse.dropWhile (· = '0')).reverse
      sign ++ toString intPart ++ "." ++ trimmed
    | none => sign ++ toString n ++ "/" ++ toString a.den

/-- JavaScript runtime values, restricted to the shapes the converter
manipulates.  `vNan` is split out of the numbers so they stay exact.
Objects and arrays carry their contents; the model treats two object or
array *literals* as distinct references (`strictEq` on them is `false`),
matching the fact that the program never compares the same object reference
through a filter value. -/
inductive JsVal where
  | vNull
  | vUndef
  | vNan
  | vNum (q : JNum)
  | vBool (b : Bool)
  | vStr (s : String)
  | vObj (fields : List (String × JsVal))
  | vArr (elems : List JsVal)
  deriving Repr, Inhabited

namespace JsVal

/-- JavaScript truthiness. -/
def truthy : JsVal → Bool
  | vNull => false
  | vUndef => false
  | vNan => false
  | vNum q => !(q.valEq 0)
  | vBool b => b
  | vStr s => s ≠ ""
  | vObj _ => true
  | vArr _ => true

/-- ToNumber coercion; `none` is `NaN`.  Arrays and objects coerce through
their string form; the converter never coerces a non-empty array or an
object to a number, so they are modelled as `NaN`. -/
def toNumber : JsVal → Option JNum
  | vNull => some 0
  | vUndef => none
  | vNan => none
  | vNum q => some q
  | vBool b => some (if b then 1 else 0)
  | vStr s => jsStringToNumber s
  | vObj _ => none
  | vArr _ => none
where
  /-- The `Number(string)` coercion: trimmed empty string is `0`, otherwise
  an optional sign followed by decimal digits with an optional fractional
  part; anything else is `NaN`.  (Hex/exponent literals are not reached by
  the converter.) -/
  jsStringToNumber (s : String) : Option JNum :=
    let cs := (s.data.dropWhile (·.isWhitespace)).reverse.dropWhile (·.isWhitespace) |>.reverse
    if cs.isEmpty then some 0
    else
      let (neg, cs1) : Bool × List Char :=
        match cs with
        | '-' :: rest => (true, rest)
        | '+' :: rest => (false, rest)
        | rest => (false, rest)
      let intDigits := cs1.takeWhile (·.isDigit)
      let rest := cs1.drop intDigits.length
      let digitsVal : List Char → Nat := fun l => l.foldl (fun acc c => acc * 10 + (c.toNat - '0'.toNat)) 0
      match rest with
      | [] =>
        if intDigits.isEmpty then none
        else
          let n : Int := digitsVal intDigits
          some (JNum.ofInt (if neg then -n else n))
      | '.' :: frac =>
        let fracDigits := frac.takeWhile (·.isDigit)
        if frac.drop fracDigits.length ≠ [] then none
        else if intDigits.isEmpty && fracDigits.isEmpty then none
        else
          let scaled : Int := digitsVal intDigits * 10 ^ fracDigits.length + digitsVal fracDigits
          some (JNum.normalize (if neg then -scaled else scaled) (10 ^ fracDigits.length))
      | _ => none

/-- ToString coercion.  Non-empty array rendering (recursive join) is not
reached by any modelled run, so arrays render as the empty array does. -/
def jsToString : JsVal → String
  | vNull => "null"
  | vUndef => "undefined"
  | vNan => "NaN"
  | vNum q => q.render
  | vBool b => if b then "true" else "false"
  | vStr s => s
  | vObj _ => "[object Object]"
  | vArr _ => ""

/-- JavaScript strict equality `===`.  Numbers compare by value, `NaN`
compares unequal to everything (including itself), different types compare
unequal, and objects/arrays compare by reference - the model's object
values are always distinct references, hence `false`. -/
def strictEq : JsVal → JsVal → Bool
  | vNull, vNull => true
  | vUndef, vUndef => true
  | vNum a, vNum b => a.valEq b
  | vBool a, vBool b => a == b
  | vStr a, vStr b => a == b
  | _, _ => false

/-- JavaScript subtraction: both operands pass through ToNumber, `NaN`
propagates. -/
def jsSub (a b : JsVal) : JsVal :=
  match a.toNumber, b.toNumber with
  | some x, some y => vNum (x.sub y)
  | _, _ => vNan

/-- JavaScript multiplication. -/
def jsMul (a b : JsVal) : JsVal :=
  match a.toNumber, b.toNumber with
  | some x, some y => vNum (x.mul y)
  | _, _ => vNan

/-- JavaScript `+`: string concatenation if either side is a string,
numeric addition otherwise (the converter only reaches these two cases). -/
def jsAdd (a b : JsVal) : JsVal :=
  match a, b with
  | vStr sa, _ => vStr (sa ++ b.jsToString)
  | _, vStr sb => vStr (a.jsToString ++ sb)
  | _, _ =>
    match a.toNumber, b.toNumber with
    | some x, some y => vNum (x.add y)
    | _, _ => vNan

/-- Property read `v[k]` on a value that is neither `null` nor `undefined`.
Missing properties yield `undefined`. -/
def getProp : JsVal → String → JsVal
  | vObj fields, k => ((fields.find? (fun f => f.1 == k)).map (·.2)).getD vUndef
  | vArr elems, k =>
    if k = "length" then vNum (JNum.ofInt elems.length)
    else match k.toNat? with
      | some i => (elems.get? i).getD vUndef
      | none => vUndef
  | vStr s, k =>
    if k = "length" then vNum (JNum.ofInt s.length)
    else match k.toNat? with
      | some i => match s.data.get? i with
        | some c => vStr (String.mk [c])
        | none => vUndef
      | none => vUndef
  | _, _ => vUndef

end JsVal

open JsVal

/-- One entry of the global `errors` diagnostics list: the source pushes
objects of the shape `{type, function, message, data}`. -/
structure ErrEntry where
  kind : String
  fn : String
  message : String
  data : List (String × JsVal)
  deriving Repr

/-- Numeric value of a hexadecimal digit character, if it is one (letters
are case-folded by setting the lowercase bit of the code point). -/
def hexDigitVal (c : Char) : Option Nat :=
  if c.isDigit then some (c.toNat - 48)
  else
    let folded := c.toNat ||| 32
    if 97 ≤ folded && folded ≤ 102 then some (folded - 87) else none

/-- Integer value parsed by the `parseInt` builtin (no radix argument):
skip leading whitespace, optional sign, optional `0x`/`0X` hexadecimal
prefix, then the longest digit prefix; `none` when there is no digit at
all. -/
def parseIntCore (s : String) : Option Int :=
  let cs := s.data.dropWhile (·.isWhitespace)
  let (neg, cs1) : Bool × List Char :=
    match cs with
    | '-' :: rest => (true, rest)
    | '+' :: rest => (false, rest)
    | rest => (false, rest)
  let (hex, cs2) : Bool × List Char :=
    match cs1 with
    | '0' :: 'x' :: rest => (true, rest)
    | '0' :: 'X' :: rest => (true, rest)
    | rest => (false, rest)
  let digits := if hex then cs2.takeWhile (fun c => (hexDigitVal c).isSome)
    else cs2.takeWhile (·.isDigit)
  if digits.isEmpty then none
  else
    let base : Nat := if hex then 16 else 10
    let n : Nat := digits.foldl (fun acc c => acc * base + (hexDigitVal c).getD 0) 0
    some (if neg then -(n : Int) else (n : Int))

/-- The `parseInt` builtin: a parsed integer, or `NaN` without digits. -/
def parseIntJs (s : String) : JsVal :=
  match parseIntCore s with
  | some n => JsVal.vNum (JNum.ofInt n)
  | none => JsVal.vNan

/-- Millisecond value of `new Date(0,0,0,0,0,0,0)` after `setFullYear(1);
setMonth(0); setDate(1)`: the epoch offset of the proleptic date
0001-01-01, pinned as a constant (the source recomputes it per call; its
value is platform and timezone dependent, see spec section 9 - this model
pins the UTC value). -/
def cSharpEpochOffsetMs : JNum := JNum.ofInt (-62135596800000)

/-- Translation of `Map.convertTimestamp` (src/chronovisor.ts:265-297,
src/unnamed/part_003:451-483).  Threads the global `errors` list
explicitly. -/
def Map.convertTimestamp (timestamp : JsVal) (format : String) (errors : List ErrEntry) :
    JsVal × List ErrEntry :=
  if strictEq timestamp JsVal.vNull then
    (JsVal.vNull, errors ++ [⟨"error", "convertTimestamp", "invalid timestamp",
      [("timestamp", timestamp), ("format", JsVal.vStr format)]⟩])
  else
    let t := match timestamp with
      | JsVal.vStr s => parseIntJs s
      | v => v
    if format = "pythonic" then (jsMul t (JsVal.vNum 1000), errors)
    else if format = "C" then
      (jsSub (jsMul t (JsVal.vNum ⟨1, 10000⟩)) (JsVal.vNum cSharpEpochOffsetMs), errors)
    else (t, errors)

/-- The normalized event entity (`Chrono`).  All fields are JS values: the
TypeScript annotations promise strings and numbers, but the runtime stores
whatever the mapping produced (`null`, `NaN`, strings, numbers), and the
pairing code branches on the runtime truthiness of each field. -/
structure Chrono where
  type : JsVal
  key : JsVal
  title : JsVal
  description : JsVal
  start : JsVal
  «end» : JsVal
  duration : JsVal
  tags : JsVal
  myPrimaryTagKey : JsVal
  deriving Repr

/-- Default event used for out-of-range store reads; never reached in the
modelled runs (all event ids index into the store). -/
instance : Inhabited Chrono :=
  ⟨⟨JsVal.vNull, JsVal.vNull, JsVal.vNull, JsVal.vNull, JsVal.vNull, JsVal.vNull,
    jsSub JsVal.vNull JsVal.vNull, JsVal.vNull, JsVal.vUndef⟩⟩

/-- Translation of the `Chrono` constructor (src/chronovisor.ts:46-70,
src/unnamed/part_003:238-262): `end` defaults to `start` when the supplied
end is `null` or `0`, `duration := end - start`, and a falsy `start` pushes
a warning.  `myPrimaryTagKey` is declared but never assigned, hence
`undefined`. -/
def Chrono.make (type key title description start : JsVal) (endArg : JsVal) (tags : JsVal)
    (errors : List ErrEntry) : Chrono × List ErrEntry :=
  let e := if strictEq endArg JsVal.vNull || strictEq endArg (JsVal.vNum 0) then start else endArg
  let c : Chrono :=
    { type := type, key := key, title := title, description := description,
      start := start, «end» := e, duration := jsSub e start, tags := tags,
      myPrimaryTagKey := JsVal.vUndef }
  let errors :=
    if !truthy start then
      errors ++ [⟨"warn", "Chron.constructor", "invalid start time",
        [("start", start), ("end", e)]⟩]
    else errors
  (c, errors)

/-- Dynamic field read `c[key]` used by the pairing filters: the nine
declared properties, anything else is `undefined`. -/
def Chrono.getField (c : Chrono) (k : String) : JsVal :=
  if k = "type" then c.type
  else if k = "key" then c.key
  else if k = "title" then c.title
  else if k = "description" then c.description
  else if k = "start" then c.start
  else if k = "end" then c.«end»
  else if k = "duration" then c.duration
  else if k = "tags" then c.tags
  else if k = "myPrimaryTagKey" then c.myPrimaryTagKey
  else JsVal.vUndef

/-- Member access `v[k]` as it appears inside loops walking nested data:
reading a property of `null` or `undefined` throws a `TypeError`, which the
embedding surfaces as `Except.error ()`. -/
def jsGetMember (v : JsVal) (k : String) : Except Unit JsVal :=
  match v with
  | JsVal.vNull => Except.error ()
  | JsVal.vUndef => Except.error ()
  | _ => Except.ok (getProp v k)

/-- Translation of `Map.getNestedValue` (src/chronovisor.ts:328-336,
src/unnamed/part_003:485-493).  A string accessor is returned verbatim; an
array accessor is walked with `ret = ret[keys[i]]`; the final value
stringifies if truthy, else the result is `null`.  The walk throws (error)
if an intermediate value is `null`/`undefined`, exactly as the JS loop
does.  A `null`/`undefined` accessor throws on the `keys.length` read; any
other non-array accessor has `length` undefined, so the loop body never
runs. -/
def Map.getNestedValue (data : JsVal) (keys : JsVal) : Except Unit JsVal :=
  match keys with
  | JsVal.vStr s => Except.ok (JsVal.vStr s)
  | JsVal.vArr ks => do
    let ret ← ks.foldlM (fun ret k => jsGetMember ret (jsToString k)) data
    Except.ok (if truthy ret then JsVal.vStr (jsToString ret) else JsVal.vNull)
  | JsVal.vNull => Except.error ()
  | JsVal.vUndef => Except.error ()
  | _ => Except.ok (if truthy data then JsVal.vStr (jsToString data) else JsVal.vNull)

/-- Specification-level restatement of the amended field-resolution claim:
walk the record one key at a time, failing (TypeError) as soon as a lookup
is attempted on `null`/`undefined`, and classify the final value by
truthiness. -/
def nestedWalkSpec : JsVal → List JsVal → Except Unit JsVal
  | v, [] => Except.ok v
  | JsVal.vNull, _ :: _ => Except.error ()
  | JsVal.vUndef, _ :: _ => Except.error ()
  | v, k :: ks => nestedWalkSpec (getProp v (jsToString k)) ks

/-- Specification-level counterpart of `Map.getNestedValue`, written from
the amended claim text rather than from the loop. -/
def Map.getNestedValueSpec (data : JsVal) (keys : JsVal) : Except Unit JsVal :=
  match keys with
  | JsVal.vStr s => Except.ok (JsVal.vStr s)
  | JsVal.vArr ks =>
    (nestedWalkSpec data ks).map
      (fun ret => if truthy ret then JsVal.vStr (jsToString ret) else JsVal.vNull)
  | JsVal.vNull => Except.error ()
  | JsVal.vUndef => Except.error ()
  | _ => Except.ok (if truthy data then JsVal.vStr (jsToString data) else JsVal.vNull)

/-- Mapping specification (`Map`).  Field accessors are runtime JS values:
a string is a static value, an array holds accessors (column indices or
nested key paths), `null`/`undefined` mark an absent field. -/
structure Map where
  type : JsVal
  key : JsVal
  title : JsVal
  description : JsVal
  start : JsVal
  «end» : JsVal
  tags : JsVal
  firstRow : Bool
  mapName : JsVal
  timestampFormat : String
  sep : String
  deriving Repr

/-- Dynamic property read `this[property]` on a mapping. -/
def Map.mapField (m : Map) (k : String) : JsVal :=
  if k = "type" then m.type
  else if k = "key" then m.key
  else if k = "title" then m.title
  else if k = "description" then m.description
  else if k = "start" then m.start
  else if k = "end" then m.«end»
  else if k = "tags" then m.tags
  else JsVal.vUndef

/-- String split by a separator substring, as `String.prototype.split`:
fuel-driven scan (the fuel is always sufficient at `length + 1`).  An empty
separator splits into single characters. -/
def jsSplitAux (sep : List Char) : Nat → List Char → List Char → List (List Char)
  | 0, rem, acc => [acc.reverse ++ rem]
  | _ + 1, [], acc => [acc.reverse]
  | fuel + 1, c :: cs, acc =>
    if sep.isPrefixOf (c :: cs) then
      acc.reverse :: jsSplitAux sep fuel ((c :: cs).drop sep.length) []
    else
      jsSplitAux sep fuel cs (c :: acc)

/-- JavaScript `s.split(sep)`. -/
def jsSplit (s sep : String) : List String :=
  if sep.data.isEmpty then s.data.map (fun c => String.mk [c])
  else (jsSplitAux sep.data (s.data.length + 1) s.data []).map String.mk

/-- Does `typeof v` yield `"object"`?  In JavaScript this includes `null`. -/
def typeofObject : JsVal → Bool
  | JsVal.vNull => true
  | JsVal.vObj _ => true
  | JsVal.vArr _ => true
  | _ => false

/-- One accessor attempt inside `Map.convert`'s property loop
(src/unnamed/part_003:410-423): an object-typed accessor goes through
`getNestedValue`, anything else indexes the datum directly. -/
def tryAccessor (datum accessor : JsVal) : Except Unit JsVal :=
  if typeofObject accessor then Map.getNestedValue datum accessor
  else Except.ok (getProp datum (jsToString accessor))

/-- The fallback scan over a property's accessor list: the first accessor
resolving to a truthy value wins; none winning leaves the property `null`. -/
def firstTruthyAccessor (datum : JsVal) : List JsVal → Except Unit JsVal
  | [] => Except.ok JsVal.vNull
  | a :: rest => do
    let value ← tryAccessor datum a
    if truthy value then Except.ok value else firstTruthyAccessor datum rest

/-- Resolution of one normalized property in `Map.convert`
(src/unnamed/part_003:400-432): a string mapping field is static; an
object-typed field (`typeof null` is `"object"`!) enters the `for...of`
loop - iterating `null` or a non-array object throws a `TypeError`; any
other field type leaves the property `null`. -/
def resolveProperty (m : Map) (datum : JsVal) (prop : String) : Except Unit JsVal :=
  match m.mapField prop with
  | JsVal.vStr s => Except.ok (JsVal.vStr s)
  | JsVal.vNull => Except.error ()
  | JsVal.vObj _ => Except.error ()
  | JsVal.vArr accs => firstTruthyAccessor datum accs
  | _ => Except.ok JsVal.vNull

/-- Body of `Map.convert` for one record (src/unnamed/part_003:392-446):
split CSV strings, resolve the seven properties in declaration order, run
both timestamps through `convertTimestamp` and subtract the global time
offset - note there is no null guard, so an absent timestamp becomes
`null - timeOffset` - then construct the `Chrono`. -/
def convertOne (m : Map) (timeOffset : JsVal) (datum : JsVal) (errors : List ErrEntry) :
    Except Unit (Chrono × List ErrEntry) := do
  let d := match datum with
    | JsVal.vStr s => JsVal.vArr ((jsSplit s m.sep).map JsVal.vStr)
    | x => x
  let ptype ← resolveProperty m d "type"
  let pkey ← resolveProperty m d "key"
  let ptitle ← resolveProperty m d "title"
  let pdescription ← resolveProperty m d "description"
  let pstart ← resolveProperty m d "start"
  let pend ← resolveProperty m d "end"
  let ptags ← resolveProperty m d "tags"
  let (ts, errors) := Map.convertTimestamp pstart m.timestampFormat errors
  let (te, errors) := Map.convertTimestamp pend m.timestampFormat errors
  Except.ok (Chrono.make ptype pkey ptitle pdescription
    (jsSub ts timeOffset) (jsSub te timeOffset) ptags errors)

/-- Iteration of `Map.convert` over the record list. -/
def convertGo (m : Map) (timeOffset : JsVal) :
    List JsVal → List ErrEntry → Except Unit (List Chrono × List ErrEntry)
  | [], errors => Except.ok ([], errors)
  | datum :: rest, errors => do
    let (c, errors1) ← convertOne m timeOffset datum errors
    let (cs, errors2) ← convertGo m timeOffset rest errors1
    Except.ok (c :: cs, errors2)

/-- Translation of `Map.convert` (src/unnamed/part_003:388-449), the
unified CSV/JSON conversion of the ChronoSet build: skips the first record
when `firstRow` is set, then converts each record. -/
def Map.convert (m : Map) (data : List JsVal) (timeOffset : JsVal) (errors : List ErrEntry) :
    Except Unit (List Chrono × List ErrEntry) :=
  convertGo m timeOffset (data.drop (if m.firstRow then 1 else 0)) errors

/-- Translation of `Map.convertCsv` (src/chronovisor.ts:238-263), the older
CSV-only conversion: each mapping field is guarded by an explicit
`=== null` check, so an absent `start`/`end` accessor yields `null`
directly, without the offset subtraction. -/
def Map.convertCsv (m : Map) (data : List String) (timeOffset : JsVal) (errors : List ErrEntry) :
    List Chrono × List ErrEntry :=
  go (data.drop (if m.firstRow then 1 else 0)) errors
where
  cell (row : JsVal) (acc : JsVal) : JsVal := getProp row (jsToString acc)
  go : List String → List ErrEntry → List Chrono × List ErrEntry
    | [], errors => ([], errors)
    | line :: rest, errors =>
      let row := JsVal.vArr ((jsSplit line m.sep).map JsVal.vStr)
      let (startV, errors1) :=
        if strictEq m.start JsVal.vNull then (JsVal.vNull, errors)
        else
          let (t, e) := Map.convertTimestamp (cell row m.start) m.timestampFormat errors
          (jsSub t timeOffset, e)
      let (endV, errors2) :=
        if strictEq m.«end» JsVal.vNull then (JsVal.vNull, errors1)
        else
          let (t, e) := Map.convertTimestamp (cell row m.«end») m.timestampFormat errors1
          (jsSub t timeOffset, e)
      let (c, errors3) := Chrono.make
        (if strictEq m.type JsVal.vNull then JsVal.vNull else cell row m.type)
        (if strictEq m.key JsVal.vNull then JsVal.vNull else cell row m.key)
        (if strictEq m.title JsVal.vNull then JsVal.vNull else cell row m.title)
        (if strictEq m.description JsVal.vNull then JsVal.vNull else cell row m.description)
        startV endV
        (if strictEq m.tags JsVal.vNull then JsVal.vNull else cell row m.tags)
        errors2
      let (cs, errors4) := go rest errors3
      (c :: cs, errors4)

/-- Time value of `new Date(v)` for the numeric values the serializers
construct dates from: ToNumber then truncation (ECMAScript `TimeClip`);
`NaN` gives an invalid date (`none`).  (Date-string parsing is not reached
by the modelled runs.) -/
def dateValue (v : JsVal) : Option Int :=
  match v.toNumber with
  | some q => some q.trunc
  | none => none

/-- Minute component of a date, `getMinutes()`, in the UTC model (the
source uses the local clock; the spec notes this is platform dependent). -/
def dateMinutes (t : Int) : Int := (Int.fdiv t 60000).emod 60

/-- Second component of a date, `getSeconds()`, in the UTC model. -/
def dateSeconds (t : Int) : Int := (Int.fdiv t 1000).emod 60

/-- The `start`/`end` sub-objects emitted by `Chrono.toJson`. -/
structure TimePoint where
  minute : JsVal
  second : JsVal
  totalSec : JsVal
  deriving Repr

/-- The JSON object emitted for one event by `Chrono.toJson`
(src/chronovisor.ts:72-96): note `totalSec` is `valueOf() * 1000`
(milliseconds times 1000), kept verbatim. -/
structure ChronoJson where
  type : JsVal
  key : JsVal
  title : JsVal
  description : JsVal
  start : TimePoint
  «end» : TimePoint
  duration : JsVal
  myAnnotTags : List (String × JsVal)
  myPrimaryTagKey : JsVal
  deriving Repr

/-- Time-point rendering used by `toJson` for each of `start`/`end`. -/
def timePointOf (v : JsVal) : TimePoint :=
  match dateValue v with
  | some t =>
    ⟨JsVal.vNum (JNum.ofInt (dateMinutes t)), JsVal.vNum (JNum.ofInt (dateSeconds t)),
      JsVal.vNum (JNum.ofInt (t * 1000))⟩
  | none => ⟨JsVal.vNan, JsVal.vNan, JsVal.vNan⟩

/-- Translation of `Chrono.toJson`. -/
def Chrono.toJson (c : Chrono) : ChronoJson :=
  { type := c.type, key := c.key, title := c.title, description := c.description,
    start := timePointOf c.start, «end» := timePointOf c.«end»,
    duration := c.duration, myAnnotTags := [], myPrimaryTagKey := JsVal.vNull }

/-- Replace the first occurrence of `pat` in a character list by `rep`, the
behaviour of `String.prototype.replace` with a string pattern. -/
def listReplaceOnce (pat rep : List Char) : List Char → List Char
  | [] => if pat.isPrefixOf ([] : List Char) then rep else []
  | c :: cs =>
    if pat.isPrefixOf (c :: cs) then rep ++ (c :: cs).drop pat.length
    else c :: listReplaceOnce pat rep cs

/-- JavaScript `s.replace(pat, rep)` with a string pattern: first
occurrence only. -/
def jsReplace (s pat rep : String) : String :=
  String.mk (listReplaceOnce pat.data rep.data s.data)

/-- Zero-padded decimal rendering of a nonnegative integer. -/
def padNat (width n : Nat) : String :=
  let s := toString n
  String.mk (List.replicate (width - s.length) '0') ++ s

/-- The time-of-day part of `toISOString()` (the fragment selected by
`split(/[TZ]/)[1]`), `HH:MM:SS.sss`, in the UTC model. -/
def isoTimeOfDay (t : Int) : String :=
  let tod := (Int.emod t 86400000).toNat
  padNat 2 (tod / 3600000) ++ ":" ++ padNat 2 (tod / 60000 % 60) ++ ":" ++
    padNat 2 (tod / 1000 % 60) ++ "." ++ padNat 3 (tod % 1000)

/-- The alternate delimiter used by the CSV escaping:
`sep === "," ? ";" : ","`. -/
def altSep (sep : String) : String := if sep = "," then ";" else ","

/-- Free-text cell of `toCsv`: a truthy field has the separator replaced by
the alternate delimiter (`field.replace(sep, alt)` - first occurrence, as
`replace` with a string pattern does), a falsy field becomes the empty
string.  The modelled fields hold strings when truthy. -/
def csvEscape (v : JsVal) (sep : String) : JsVal :=
  if truthy v then JsVal.vStr (jsReplace (jsToString v) sep (altSep sep)) else JsVal.vStr ""

/-- The cell list of one `toCsv` row (src/chronovisor.ts:113-123): title,
description, start time-of-day, start epoch seconds, end time-of-day, end
epoch seconds, duration, an empty primary-tag column, tags. -/
def Chrono.toCsvCells (c : Chrono) (sep : String) : List JsVal :=
  let s := if truthy c.start then dateValue c.start else none
  let e := if truthy c.«end» then dateValue c.«end» else none
  [csvEscape c.title sep,
   csvEscape c.description sep,
   (match s with | some t => JsVal.vStr (isoTimeOfDay t) | none => JsVal.vStr ""),
   (match s with | some t => JsVal.vNum (JNum.div (JNum.ofInt t) 1000) | none => JsVal.vStr ""),
   (match e with | some t => JsVal.vStr (isoTimeOfDay t) | none => JsVal.vStr ""),
   (match e with | some t => JsVal.vNum (JNum.div (JNum.ofInt t) 1000) | none => JsVal.vStr ""),
   c.duration,
   JsVal.vStr "",
   csvEscape c.tags sep]

/-- Array `join(sep)`: `null` and `undefined` elements render empty. -/
def jsJoin (cells : List JsVal) (sep : String) : String :=
  String.intercalate sep (cells.map (fun v =>
    match v with
    | JsVal.vNull => ""
    | JsVal.vUndef => ""
    | _ => jsToString v))

/-- Translation of `Chrono.toCsv` (src/chronovisor.ts:98-125): pushes a
serialization error when `start` or `end` is falsy, then joins the cells. -/
def Chrono.toCsv (c : Chrono) (sep : String) (errors : List ErrEntry) : String × List ErrEntry :=
  let errors :=
    if !truthy c.start || !truthy c.«end» then
      errors ++ [⟨"error", "toCsv", "could not convert start or end time to Date object",
        [("start", c.start), ("end", c.«end»)]⟩]
    else errors
  (jsJoin (c.toCsvCells sep) sep, errors)

/-- Association lookup in a JS-object-as-dictionary. -/
def assocGet (l : List (String × α)) (k : String) : Option α :=
  ((l.find? (fun e => e.1 == k)).map (·.2))

/-- JS object property write: overwrite in place if the key exists
(insertion order preserved), append otherwise. -/
def jsUpsert : List (String × α) → String → α → List (String × α)
  | [], k, v => [(k, v)]
  | (k', v') :: rest, k, v =>
    if k' = k then (k', v) :: rest else (k', v') :: jsUpsert rest k v

/-- Counter value `Jsonify` uses for the next occurrence of raw key `k`:
the stored counter plus one if `k` was seen, else `0`
(src/unnamed/part_003:83-88). -/
def dictNext (keys : List (String × Nat)) (k : String) : Nat :=
  match assocGet keys k with
  | some n => n + 1
  | none => 0

/-- Loop of `ChronoSet.Jsonify` (src/unnamed/part_003:79-95), threading the
output object, the `keys` counter dictionary and the number of `getUuid()`
calls made so far; `uuid` models the random UUID source as a stream.
Returns the output object and the event list with every `key` overwritten
by its final serialization key. -/
def jsonifyGo (uuid : Nat → String) :
    List Chrono → List (String × ChronoJson) → List (String × Nat) → Nat →
    List (String × ChronoJson) × List Chrono
  | [], json, _, _ => (json, [])
  | c :: rest, json, keys, ucount =>
    if truthy c.key then
      let kstr := jsToString c.key
      let cnt := dictNext keys kstr
      let newKey := toString cnt ++ kstr
      let c' := { c with key := JsVal.vStr newKey }
      let (jsonOut, csOut) :=
        jsonifyGo uuid rest (jsUpsert json newKey c'.toJson) (jsUpsert keys kstr cnt) ucount
      (jsonOut, c' :: csOut)
    else
      let newKey := uuid ucount
      let c' := { c with key := JsVal.vStr newKey }
      let (jsonOut, csOut) :=
        jsonifyGo uuid rest (jsUpsert json newKey c'.toJson) keys (ucount + 1)
      (jsonOut, c' :: csOut)

/-- Translation of `ChronoSet.Jsonify` (src/unnamed/part_003:75-98, same
logic as `Chrono.Jsonify` in src/chronovisor.ts:153-176). -/
def ChronoSet.Jsonify (chronos : List Chrono) (uuid : Nat → String) :
    List (String × ChronoJson) × List Chrono :=
  jsonifyGo uuid chronos [] [] 0

/-- The final serialization keys assigned by `Jsonify`, in event order. -/
def jsonifyAssignedKeys (chronos : List Chrono) (uuid : Nat → String) : List String :=
  (ChronoSet.Jsonify chronos uuid).2.map (fun c => jsToString c.key)

/-- Number of events in `pre` whose raw key is truthy and stringifies to
`k` (used by the specification-level key-assignment formula). -/
def keyOccCount (pre : List Chrono) (k : String) : Nat :=
  (pre.filter (fun c => truthy c.key && (jsToString c.key == k))).length

/-- Number of events in `pre` with a falsy key. -/
def unkeyedCount (pre : List Chrono) : Nat :=
  (pre.filter (fun c => !truthy c.key)).length

/-- Specification-level key assignment, written from the amended claim: the
i-th event's final key is its zero-based occurrence count among earlier
same-raw-key events, rendered in decimal and prefixed to the raw key;
events with a falsy key get the next generated UUID. -/
def jsonifySpecKeys (chronos : List Chrono) (uuid : Nat → String) : List String :=
  (List.range chronos.length).map (fun i =>
    let c := chronos.getD i default
    if truthy c.key then
      toString (keyOccCount (chronos.take i) (jsToString c.key)) ++ jsToString c.key
    else uuid (unkeyedCount (chronos.take i)))

/-- The `flags.IS_SAME_AS` sentinel: enum member 0, i.e. the JS number `0`. -/
def IS_SAME_AS : JsVal := JsVal.vNum 0

/-- Position of the first occurrence of `x`, if any. -/
def idxOfAux (x : Nat) : List Nat → Option Nat
  | [] => none
  | y :: ys => if y = x then some 0 else (idxOfAux x ys).map (· + 1)

/-- `Array.prototype.indexOf` on a list of event ids: first index or `-1`. -/
def jsIndexOf (arr : List Nat) (x : Nat) : Int :=
  match idxOfAux x arr with
  | some i => (i : Int)
  | none => -1

/-- The nested `getIndecies` helper of `FindSuccessivePairs`
(src/unnamed/part_003:130-139): the index of each element of `A` in `B`,
`-1` when absent. -/
def getIndecies (A B : List Nat) : List Int := A.map (jsIndexOf B)

/-- Application of a filter dictionary, mirroring the
`for (key in dict) list = list.filter(c => c[key] === dict[key])` loops of
`FindSuccessivePairs` (src/unnamed/part_003:144-154).  Events are ids into
the object `store`. -/
def applyFilterDict (store : List Chrono) (dict : List (String × JsVal)) (l : List Nat) :
    List Nat :=
  dict.foldl (fun acc kv =>
    acc.filter (fun i => strictEq ((store.getD i default).getField kv.1) kv.2)) l

/-- Conjunction predicate denoted by a filter dictionary. -/
def matchesDict (dict : List (String × JsVal)) (c : Chrono) : Bool :=
  dict.all (fun kv => strictEq (c.getField kv.1) kv.2)

/-- Resolution of the end-filter dictionary: a value strictly equal to
`flags.IS_SAME_AS` is replaced by the start filter's value for the same key
(`undefined` when the start filter has no such key). -/
def resolveEndKey (startKey endKey : List (String × JsVal)) : List (String × JsVal) :=
  endKey.map (fun kv =>
    (kv.1, if strictEq kv.2 IS_SAME_AS then (assocGet startKey kv.1).getD JsVal.vUndef
           else kv.2))

/-- The inner end-scanning loop of `FindSuccessivePairs`
(src/unnamed/part_003:163-174), after its first iteration has selected
`cur = ends[0]`: while the current candidate's position (`pos`) is at most
`index`, advance to the next candidate; on the first candidate positioned
after `index`, claim it and splice it out of the working list; running off
the end claims the last candidate without removing it. -/
def scanEnds (pos : Nat → Int) (index : Int) : Nat → List Nat → Nat × List Nat
  | cur, [] => (cur, [cur])
  | cur, next :: rest =>
    if index < pos cur then (cur, next :: rest)
    else
      let (c, l) := scanEnds pos index next rest
      (c, cur :: l)

/-- The complete end-claiming step for one start: `none` when the working
`ends` list is empty (the subsequent merge then throws). -/
def claimEnd (pos : Nat → Int) (index : Int) (ends : List Nat) : Option Nat × List Nat :=
  match ends with
  | [] => (none, [])
  | e :: rest =>
    let (c, l) := scanEnds pos index e rest
    (some c, l)

/-- Index of the first element positioned strictly after `index`. -/
def findIdxAfter (pos : Nat → Int) (index : Int) : List Nat → Option Nat
  | [] => none
  | e :: rest =>
    if index < pos e then some 0 else (findIdxAfter pos index rest).map (· + 1)

/-- Specification-level restatement of the amended end-claiming behaviour:
among all but the last element of the working list, the first end
positioned strictly after `index` is claimed and removed; if there is none,
the last element is claimed but left in the list (so a later start can
claim it again). -/
def claimEndSpec (pos : Nat → Int) (index : Int) (ends : List Nat) : Option Nat × List Nat :=
  match findIdxAfter pos index ends.dropLast with
  | some j => (ends.get? j, ends.eraseIdx j)
  | none => (ends.getLast?, ends)

/-- The merge of a claimed end event into its start event
(src/unnamed/part_003:176-184): start-preference for the descriptive
fields, `start.end := end.start`, duration recomputed, tags concatenated
with JS `+`. -/
def mergeChronos (s e : Chrono) : Chrono :=
  { type := if truthy s.type then s.type else e.type,
    key := if truthy s.key then s.key else e.key,
    title := if truthy s.title then s.title else e.title,
    description := if truthy s.description then s.description else e.description,
    start := s.start,
    «end» := e.start,
    duration := jsSub e.start s.start,
    tags := jsAdd s.tags e.tags,
    myPrimaryTagKey := if truthy s.myPrimaryTagKey then s.myPrimaryTagKey
                       else e.myPrimaryTagKey }

/-- The pairing loop over the starts (src/unnamed/part_003:159-185):
each start (in filter order) claims an end and is merged in place in the
object store; the claim throws a `TypeError` when the working `ends` list
is empty (`end` stays `undefined` and `end.start` is read). -/
def pairLoop (arr : List Nat) :
    List Nat → List Chrono → List Nat → Except Unit (List Chrono × List Nat)
  | [], store, ends => Except.ok (store, ends)
  | sid :: rest, store, ends =>
    let index := jsIndexOf arr sid
    match claimEnd (jsIndexOf arr) index ends with
    | (none, _) => Except.error ()
    | (some eid, ends') =>
      pairLoop arr rest
        (store.set sid (mergeChronos (store.getD sid default) (store.getD eid default)))
        ends'

/-- One JS `splice(i, 1)` call: negative indices count from the end,
out-of-range indices remove nothing. -/
def jsSpliceRemove (l : List α) (i : Int) : List α :=
  let j : Nat := if i < 0 then (((l.length : Int) + i).toNat) else i.toNat
  l.eraseIdx j

/-- Insertion into a descending list (kernel of the model of
`sort((a, b) => b - a)`). -/
def insertDesc (x : Int) : List Int → List Int
  | [] => [x]
  | y :: ys => if y ≤ x then x :: y :: ys else y :: insertDesc x ys

/-- Descending sort used on `indeciesToPop` before splicing. -/
def sortDesc (l : List Int) : List Int := l.foldr insertDesc []

/-- Core of `FindSuccessivePairs` (src/unnamed/part_003:128-199) on an
explicit object store and an id array: filter the starts and ends, record
the positions to remove, run the pairing loop, then splice the recorded
positions out in descending order.  Returns the mutated store, the spliced
array, and the pair ids (the starts, whose objects were merged in place). -/
def fspCore (store : List Chrono) (arr : List Nat)
    (startKey endKey : List (String × JsVal)) :
    Except Unit (List Chrono × List Nat × List Nat) :=
  let starts := applyFilterDict store startKey arr
  let ends := applyFilterDict store (resolveEndKey startKey endKey) arr
  let indeciesToPop := getIndecies starts arr ++ getIndecies ends arr
  match pairLoop arr starts store ends with
  | Except.error e => Except.error e
  | Except.ok (store', _) =>
    let spliced := (sortDesc indeciesToPop).foldl jsSpliceRemove arr
    Except.ok (store', spliced, starts)

/-- Translation of `ChronoSet.FindSuccessivePairs` on a plain event list
(ids are the positions in the input list): returns the new `chronos`
contents (spliced remainder with the merged pairs appended) and the
returned pairs. -/
def ChronoSet.FindSuccessivePairs (chronos : List Chrono)
    (startKey endKey : List (String × JsVal)) :
    Except Unit (List Chrono × List Chrono) :=
  match fspCore chronos (List.range chronos.length) startKey endKey with
  | Except.error e => Except.error e
  | Except.ok (store, spliced, pairIds) =>
    Except.ok ((spliced ++ pairIds).map (fun i => store.getD i default),
      pairIds.map (fun i => store.getD i default))

/-- A `ChronoSet` with its array heap made explicit: `chronos` and
`chronos_backup` are references into `arrays`; the constructor aliases
both to the same array (src/unnamed/part_003:51-55). -/
structure ChronoSetSt where
  store : List Chrono
  arrays : List (List Nat)
  chronosRef : Nat
  chronos_backupRef : Nat
  deriving Repr

/-- The `ChronoSet` constructor: one shared array holding all events. -/
def ChronoSet.construct (chronos : List Chrono) : ChronoSetSt :=
  { store := chronos, arrays := [List.range chronos.length],
    chronosRef := 0, chronos_backupRef := 0 }

/-- The events currently reachable through `this.chronos`. -/
def ChronoSetSt.chronosView (s : ChronoSetSt) : List Chrono :=
  (s.arrays.getD s.chronosRef []).map (fun i => s.store.getD i default)

/-- The events currently reachable through `this.chronos_backup`. -/
def ChronoSetSt.backupView (s : ChronoSetSt) : List Chrono :=
  (s.arrays.getD s.chronos_backupRef []).map (fun i => s.store.getD i default)

/-- `FindSuccessivePairs` as a method: the splices mutate the array that
`this.chronos` points to in place, then `concat` allocates a fresh array
for `this.chronos`; `this.chronos_backup` keeps pointing at the spliced
array. -/
def ChronoSetSt.FindSuccessivePairs (s : ChronoSetSt)
    (startKey endKey : List (String × JsVal)) : Except Unit (ChronoSetSt × List Nat) :=
  match fspCore s.store (s.arrays.getD s.chronosRef []) startKey endKey with
  | Except.error e => Except.error e
  | Except.ok (store', spliced, pairIds) =>
    let arrays2 := s.arrays.set s.chronosRef spliced
    let s2 : ChronoSetSt :=
      { store := store', arrays := arrays2 ++ [spliced ++ pairIds],
        chronosRef := arrays2.length, chronos_backupRef := s.chronos_backupRef }
    Except.ok (s2, pairIds)

/-- The duration consistency invariant of an event: `duration` holds
exactly `end - start` (as the JS subtraction of the stored values). -/
def DurationInv (c : Chrono) : Prop :=
  c.duration = jsSub c.«end» c.start

/-- Concrete fixture: an event of a given `type` and `description` with a
given integer `start` (end omitted, as in the pairing scenarios). -/
def evTD (ty desc : String) (t : Int) : Chrono :=
  (Chrono.make (JsVal.vStr ty) JsVal.vNull JsVal.vNull (JsVal.vStr desc)
    (JsVal.vNum (JNum.ofInt t)) JsVal.vNull JsVal.vNull []).1

/-- Concrete fixture: an event whose only distinguishing field is `key`. -/
def evKeyed (k : JsVal) : Chrono :=
  (Chrono.make JsVal.vNull k JsVal.vNull JsVal.vNull (JsVal.vNum 1)
    JsVal.vNull JsVal.vNull []).1

/-- Concrete start filter `{type: "start"}`. -/
def startFilterType : List (String × JsVal) := [("type", JsVal.vStr "start")]

/-- Concrete end filter `{type: "stop"}`. -/
def endFilterType : List (String × JsVal) := [("type", JsVal.vStr "stop")]

/-- A deterministic stand-in for the `getUuid()` stream. -/
def uuidStream (n : Nat) : String := "uuid-" ++ toString n

/-- Mapping fixture for the ChronoSet-build `convert`: every field left
unmapped, which `getMapFromDOM` represents as an empty accessor array
(src/unnamed/part_003:650). -/
def mapAllAbsent : Map :=
  { type := JsVal.vArr [], key := JsVal.vArr [], title := JsVal.vArr [],
    description := JsVal.vArr [], start := JsVal.vArr [], «end» := JsVal.vArr [],
    tags := JsVal.vArr [], firstRow := false, mapName := JsVal.vNull,
    timestampFormat := "pythonic", sep := "," }

/-- The sequence of final keys assigned by the `Jsonify` loop, carrying
only the counter dictionary and UUID-call count (the output object plays
no role in the assignment). -/
def assignedKeysGo (uuid : Nat → String) :
    List Chrono → List (String × Nat) → Nat → List String
  | [], _, _ => []
  | c :: rest, keys, uc =>
    if truthy c.key then
      (toString (dictNext keys (jsToString c.key)) ++ jsToString c.key) ::
        assignedKeysGo uuid rest
          (jsUpsert keys (jsToString c.key) (dictNext keys (jsToString c.key))) uc
    else
      uuid uc :: assignedKeysGo uuid rest keys (uc + 1)

/-! Theorems.  Each claim of the specification review is settled by one
theorem below (with a counterexample theorem where the claim as stated
fails on the code). -/

/-- `parseInt` always yields a number or `NaN`. -/
theorem parseIntJs_shape (s : String) :
    (∃ q, parseIntJs s = JsVal.vNum q) ∨ parseIntJs s = JsVal.vNan := by
  unfold parseIntJs
  cases parseIntCore s
  · exact Or.inr rfl
  · exact Or.inl ⟨_, rfl⟩

/-- Claim C9: for every format, `convertTimestamp(null, format)` appends an
error-kind "invalid timestamp" diagnostic to the diagnostics list and
returns `null`, without failing, and leaves the earlier diagnostics
untouched so processing continues. -/
theorem convertTimestamp_null (format : String) (errors : List ErrEntry) :
    Map.convertTimestamp JsVal.vNull format errors =
      (JsVal.vNull, errors ++ [⟨"error", "convertTimestamp", "invalid timestamp",
        [("timestamp", JsVal.vNull), ("format", JsVal.vStr format)]⟩]) := rfl

/-- Claim C10: a string timestamp is first reduced with `parseInt`, so its
fractional part is discarded: `convertTimestamp("1.9", "pythonic")` yields
`1000`, while the numeric input `1.9` yields `1900`. -/
theorem convertTimestamp_string_parseInt :
    (∀ (s : String) (format : String) (errors : List ErrEntry),
      Map.convertTimestamp (JsVal.vStr s) format errors =
        Map.convertTimestamp (parseIntJs s) format errors)
    ∧ (∀ errors, Map.convertTimestamp (JsVal.vStr "1.9") "pythonic" errors =
        (JsVal.vNum 1000, errors))
    ∧ (∀ errors, Map.convertTimestamp (JsVal.vNum ⟨19, 10⟩) "pythonic" errors =
        (JsVal.vNum 1900, errors)) := by
  refine ⟨fun s format errors => ?_, fun errors => rfl, fun errors => rfl⟩
  rcases parseIntJs_shape s with ⟨q, hq⟩ | hq <;>
    simp [Map.convertTimestamp, JsVal.strictEq, hq]

/-- Claim C5 (code bug): in the ChronoSet build's `Map.convert`, an absent
`start` accessor (the empty accessor list) resolves to `null`, and
`convertTimestamp(null) - timeOffset` evaluates to `0 - timeOffset`: with
offset 5 the produced event's `start` is `-5`, not `null` as the
specification requires (the source marks the line with a FIXME). -/
theorem convert_absent_start_is_offset :
    (Map.convert mapAllAbsent [JsVal.vStr "hello"] (JsVal.vNum 5) []).map
        (fun r => r.1.map Chrono.start) =
      Except.ok [JsVal.vNum (JNum.ofInt (-5))] := rfl

/-- Claim C4 (code bug): the backup array aliases the live `chronos` array,
and `FindSuccessivePairs` splices the live array in place, so the backup
taken at construction (here: 2 events) no longer equals the construction
list afterwards (here: it is empty). -/
theorem backup_mutated_by_pairing :
    ((ChronoSet.construct [evTD "start" "A" 10, evTD "stop" "A" 50]).FindSuccessivePairs
        startFilterType endFilterType).map (fun r => r.1.backupView.length) =
      Except.ok 0
    ∧ (ChronoSet.construct [evTD "start" "A" 10, evTD "stop" "A" 50]).backupView.length = 2 :=
  ⟨rfl, rfl⟩

/-- The member-access fold of `getNestedValue` agrees with the
specification-level walk. -/
theorem foldlM_jsGetMember_eq_walk (ks : List JsVal) (v : JsVal) :
    ks.foldlM (fun ret k => jsGetMember ret (jsToString k)) v = nestedWalkSpec v ks := by
  induction ks generalizing v with
  | nil => cases v <;> rfl
  | cons k ks ih =>
    cases v
    case vNull => rfl
    case vUndef => rfl
    all_goals exact ih _

/-- Claim C6 (counterexample): resolving the two-key path `["a","b"]`
against the empty record does not return `null` - the second lookup is
applied to `undefined` and the walk throws a `TypeError`. -/
theorem getNestedValue_throws_on_intermediate_undefined :
    Map.getNestedValue (JsVal.vObj []) (JsVal.vArr [JsVal.vStr "a", JsVal.vStr "b"]) =
      Except.error () := rfl

/-- Claim C6 (amended): field resolution walks the record by successive
lookup; a lookup on an intermediate `undefined`/`null` throws a TypeError
(it does not return `null`); a completed walk returns the string
representation of a truthy final value and `null` for a falsy one; string
accessors return verbatim. -/
theorem getNestedValue_eq_spec (data keys : JsVal) :
    Map.getNestedValue data keys = Map.getNestedValueSpec data keys := by
  cases keys <;> try rfl
  case vArr ks =>
    show (ks.foldlM (fun ret k => jsGetMember ret (jsToString k)) data).bind
        (fun ret => Except.ok (if truthy ret then JsVal.vStr (jsToString ret) else JsVal.vNull)) =
      (nestedWalkSpec data ks).map
        (fun ret => if truthy ret then JsVal.vStr (jsToString ret) else JsVal.vNull)
    rw [foldlM_jsGetMember_eq_walk]
    cases nestedWalkSpec data ks <;> rfl

/-- Claim C7 (counterexample): `toCsv(",")` on an event titled `"a,b,c"`
emits the title cell `"a;b,c"`, which still contains a literal `,` - only
the first occurrence of the separator is replaced. -/
theorem toCsv_second_separator_unescaped :
    ((Chrono.make JsVal.vNull JsVal.vNull (JsVal.vStr "a,b,c") JsVal.vNull
        (JsVal.vNum 1000) (JsVal.vNum 2000) JsVal.vNull []).1.toCsvCells ",").head? =
      some (JsVal.vStr "a;b,c")
    ∧ ("a;b,c".data.contains ',' = true) :=
  ⟨rfl, rfl⟩

/-- Every list is a `isPrefixOf`-prefix of itself followed by anything. -/
theorem isPrefixOf_append_self (l t : List Char) : l.isPrefixOf (l ++ t) = true := by
  induction l with
  | nil => cases t <;> simp [List.isPrefixOf]
  | cons a as ih => simp [List.isPrefixOf, ih]

/-- When the pattern matches at the front, `listReplaceOnce` substitutes
there and keeps the remainder. -/
theorem listReplaceOnce_isPrefixOf (pat rep s : List Char)
    (h : pat.isPrefixOf s = true) :
    listReplaceOnce pat rep s = rep ++ s.drop pat.length := by
  cases s with
  | nil =>
    cases pat with
    | nil => simp [listReplaceOnce, List.isPrefixOf]
    | cons a as => simp [List.isPrefixOf] at h
  | cons c cs =>
    rw [listReplaceOnce, if_pos h]

/-- Replacing by a string pattern rewrites exactly the first occurrence:
on `pre ++ pat ++ post` where the pattern matches at no position inside
`pre`, the result is `pre ++ rep ++ post`. -/
theorem listReplaceOnce_at (pat rep : List Char) :
    ∀ (pre post : List Char),
      (∀ n, n < pre.length → pat.isPrefixOf ((pre ++ pat ++ post).drop n) = false) →
      listReplaceOnce pat rep (pre ++ pat ++ post) = pre ++ rep ++ post := by
  intro pre
  induction pre with
  | nil =>
    intro post _
    show listReplaceOnce pat rep (pat ++ post) = rep ++ post
    rw [listReplaceOnce_isPrefixOf pat rep (pat ++ post) (isPrefixOf_append_self pat post),
      List.drop_left]
  | cons a pre ih =>
    intro post hf
    have h0 : pat.isPrefixOf (a :: (pre ++ pat ++ post)) = false := by
      have h := hf 0 (Nat.succ_pos pre.length)
      simpa using h
    show listReplaceOnce pat rep (a :: (pre ++ pat ++ post)) = a :: (pre ++ rep ++ post)
    rw [listReplaceOnce, if_neg (by rw [h0]; exact Bool.false_ne_true)]
    refine congrArg (a :: ·) (ih post ?_)
    intro n hn
    have h := hf (n + 1) (Nat.succ_lt_succ hn)
    simpa using h

/-- `csvEscape` on a field whose first occurrence of the separator sits at
position `pre.length` replaces exactly that occurrence by the alternate
delimiter. -/
theorem csvEscape_replace_at (sep : String) (pre post : List Char)
    (hne : sep.data ≠ [])
    (hf : ∀ n, n < pre.length →
      sep.data.isPrefixOf ((pre ++ sep.data ++ post).drop n) = false) :
    csvEscape (JsVal.vStr (String.mk (pre ++ sep.data ++ post))) sep =
      JsVal.vStr (String.mk (pre ++ (altSep sep).data ++ post)) := by
  have hs : (String.mk (pre ++ sep.data ++ post)) ≠ "" := by
    intro h
    have hd : pre ++ sep.data ++ post = ([] : List Char) := congrArg String.data h
    exact hne (List.append_eq_nil.mp (List.append_eq_nil.mp hd).1).2
  have htr : truthy (JsVal.vStr (String.mk (pre ++ sep.data ++ post))) = true :=
    decide_eq_true hs
  unfold csvEscape
  rw [if_pos htr]
  show JsVal.vStr (String.mk
      (listReplaceOnce sep.data (altSep sep).data (pre ++ sep.data ++ post))) = _
  rw [listReplaceOnce_at sep.data (altSep sep).data pre post hf]

/-- Claim C7 (amended): for every event and every non-empty separator
`sep`, `toCsv(sep)` replaces the first literal occurrence of `sep` inside
each of the free-text fields - title (cell 0), description (cell 1) and
tags (cell 8) - with the alternate delimiter, `";"` when `sep` is `","`
and `","` otherwise; occurrences after the first stay unescaped (see the
counterexample theorem). -/
theorem toCsv_free_fields_replace_first (c : Chrono) (sep : String)
    (pre1 post1 pre2 post2 pre3 post3 : List Char)
    (hsep : sep.data ≠ [])
    (ht : c.title = JsVal.vStr (String.mk (pre1 ++ sep.data ++ post1)))
    (hd : c.description = JsVal.vStr (String.mk (pre2 ++ sep.data ++ post2)))
    (hg : c.tags = JsVal.vStr (String.mk (pre3 ++ sep.data ++ post3)))
    (hf1 : ∀ n, n < pre1.length →
      sep.data.isPrefixOf ((pre1 ++ sep.data ++ post1).drop n) = false)
    (hf2 : ∀ n, n < pre2.length →
      sep.data.isPrefixOf ((pre2 ++ sep.data ++ post2).drop n) = false)
    (hf3 : ∀ n, n < pre3.length →
      sep.data.isPrefixOf ((pre3 ++ sep.data ++ post3).drop n) = false) :
    (c.toCsvCells sep).head? = some (JsVal.vStr (String.mk
        (pre1 ++ (if sep = "," then (";" : String) else ",").data ++ post1)))
    ∧ (c.toCsvCells sep)[1]? = some (JsVal.vStr (String.mk
        (pre2 ++ (if sep = "," then (";" : String) else ",").data ++ post2)))
    ∧ (c.toCsvCells sep)[8]? = some (JsVal.vStr (String.mk
        (pre3 ++ (if sep = "," then (";" : String) else ",").data ++ post3))) := by
  refine ⟨?_, ?_, ?_⟩
  · have h0 : (c.toCsvCells sep).head? = some (csvEscape c.title sep) := rfl
    rw [h0, ht, csvEscape_replace_at sep pre1 post1 hsep hf1]
    exact rfl
  · have h1 : (c.toCsvCells sep)[1]? = some (csvEscape c.description sep) := rfl
    rw [h1, hd, csvEscape_replace_at sep pre2 post2 hsep hf2]
    exact rfl
  · have h8 : (c.toCsvCells sep)[8]? = some (csvEscape c.tags sep) := rfl
    rw [h8, hg, csvEscape_replace_at sep pre3 post3 hsep hf3]
    exact rfl

/-- Witness for the amended claim C7 at the specification's own example
separator `","`: title `"a,b"`, description `"x,y"`, tags `"t,u"` emit
`"a;b"`, `"x;y"`, `"t;u"`. -/
theorem toCsv_free_fields_replace_first_witness :
    (((Chrono.make JsVal.vNull JsVal.vNull (JsVal.vStr "a,b") (JsVal.vStr "x,y")
        (JsVal.vNum 1000) (JsVal.vNum 2000) (JsVal.vStr "t,u") []).1.toCsvCells ",").head? =
      some (JsVal.vStr "a;b"))
    ∧ (((Chrono.make JsVal.vNull JsVal.vNull (JsVal.vStr "a,b") (JsVal.vStr "x,y")
        (JsVal.vNum 1000) (JsVal.vNum 2000) (JsVal.vStr "t,u") []).1.toCsvCells ",")[1]? =
      some (JsVal.vStr "x;y"))
    ∧ (((Chrono.make JsVal.vNull JsVal.vNull (JsVal.vStr "a,b") (JsVal.vStr "x,y")
        (JsVal.vNum 1000) (JsVal.vNum 2000) (JsVal.vStr "t,u") []).1.toCsvCells ",")[8]? =
      some (JsVal.vStr "t;u")) :=
  toCsv_free_fields_replace_first _ ","
    ['a'] ['b'] ['x'] ['y'] ['t'] ['u']
    (by decide) rfl rfl rfl (by decide) (by decide) (by decide)

/-- Claim C3 (counterexample): with events
`[start "A"@10, start "B"@20, stop "A"@50]` exactly one event matches the
end filter, yet both starts are merged with it - both returned pairs carry
`end = 50`.  The single claimed end was never removed from the working
list, so the later start claimed it again. -/
theorem pairing_reuses_last_end :
    (ChronoSet.FindSuccessivePairs
        [evTD "start" "A" 10, evTD "start" "B" 20, evTD "stop" "A" 50]
        startFilterType endFilterType).map (fun r => r.2.map (fun c => c.«end»)) =
      Except.ok [JsVal.vNum (JNum.ofInt 50), JsVal.vNum (JNum.ofInt 50)]
    ∧ ([evTD "start" "A" 10, evTD "start" "B" 20, evTD "stop" "A" 50].filter
        (matchesDict endFilterType)).length = 1 :=
  ⟨rfl, rfl⟩

/-- The scanning loop agrees with the specification-level claim rule on a
non-empty working list. -/
theorem scanEnds_eq_spec (pos : Nat → Int) (index : Int) :
    ∀ (rest : List Nat) (cur : Nat),
      (some (scanEnds pos index cur rest).1, (scanEnds pos index cur rest).2) =
        claimEndSpec pos index (cur :: rest) := by
  intro rest
  induction rest with
  | nil => intro cur; rfl
  | cons next rest ih =>
    intro cur
    by_cases h : index < pos cur
    · have hs : scanEnds pos index cur (next :: rest) = (cur, next :: rest) := by
        rw [scanEnds, if_pos h]
      have hf : findIdxAfter pos index ((cur :: next :: rest).dropLast) = some 0 := by
        show (if index < pos cur then some 0
          else (findIdxAfter pos index ((next :: rest).dropLast)).map (· + 1)) = some 0
        rw [if_pos h]
      rw [hs]
      unfold claimEndSpec
      rw [hf]
      rfl
    · have hs : scanEnds pos index cur (next :: rest) =
          ((scanEnds pos index next rest).1, cur :: (scanEnds pos index next rest).2) := by
        rw [scanEnds, if_neg h]
      rw [hs]
      unfold claimEndSpec
      have hf : findIdxAfter pos index ((cur :: next :: rest).dropLast) =
          (findIdxAfter pos index ((next :: rest).dropLast)).map (· + 1) := by
        show (if index < pos cur then some 0
          else (findIdxAfter pos index ((next :: rest).dropLast)).map (· + 1)) = _
        rw [if_neg h]
      rw [hf]
      have hspec := ih next
      unfold claimEndSpec at hspec
      cases hfi : findIdxAfter pos index ((next :: rest).dropLast) with
      | some j =>
        rw [hfi] at hspec
        have e1 : some (scanEnds pos index next rest).1 = (next :: rest).get? j :=
          congrArg Prod.fst hspec
        have e2 : (scanEnds pos index next rest).2 = (next :: rest).eraseIdx j :=
          congrArg Prod.snd hspec
        show (some (scanEnds pos index next rest).1, cur :: (scanEnds pos index next rest).2) =
          ((cur :: next :: rest).get? (j + 1), (cur :: next :: rest).eraseIdx (j + 1))
        rw [show (cur :: next :: rest).get? (j + 1) = (next :: rest).get? j from rfl,
          show (cur :: next :: rest).eraseIdx (j + 1) = cur :: (next :: rest).eraseIdx j from rfl,
          ← e1, e2]
      | none =>
        rw [hfi] at hspec
        have e1 : some (scanEnds pos index next rest).1 = (next :: rest).getLast? :=
          congrArg Prod.fst hspec
        have e2 : (scanEnds pos index next rest).2 = next :: rest :=
          congrArg Prod.snd hspec
        show (some (scanEnds pos index next rest).1, cur :: (scanEnds pos index next rest).2) =
          ((cur :: next :: rest).getLast?, cur :: next :: rest)
        rw [List.getLast?_cons_cons, ← e1, e2]

/-- Claim C3 (amended): for each start, the scan claims the first end
among all but the last of the working list whose original position exceeds
the start's position and removes it; if no such end exists the scan claims
the last end of the working list without removing it, so a later start can
claim that same end again (and the claimed end need not lie after the
start). -/
theorem claimEnd_eq_spec (pos : Nat → Int) (index : Int) (ends : List Nat) :
    claimEnd pos index ends = claimEndSpec pos index ends := by
  cases ends with
  | nil => rfl
  | cons e rest =>
    show (some (scanEnds pos index e rest).1, (scanEnds pos index e rest).2) =
      claimEndSpec pos index (e :: rest)
    exact scanEnds_eq_spec pos index rest e

/-- Claim C1 (counterexample): `Jsonify` counter-prefixes every truthy key,
not only duplicated, ones - two events with the distinct keys `"A"`, `"B"`
come out as `"0A"`, `"0B"` - and the assigned keys are not always pairwise
distinct: twelve events keyed `"A"` and two keyed `"1A"` both produce the
final key `"11A"`. -/
theorem jsonify_keys_not_as_claimed :
    jsonifyAssignedKeys [evKeyed (JsVal.vStr "A"), evKeyed (JsVal.vStr "B")] uuidStream =
      ["0A", "0B"]
    ∧ (jsonifyAssignedKeys
        (List.replicate 12 (evKeyed (JsVal.vStr "A")) ++
          List.replicate 2 (evKeyed (JsVal.vStr "1A"))) uuidStream).count "11A" = 2 :=
  ⟨rfl, by decide⟩

/-- Upserting a counter and then looking one up. -/
theorem assocGet_jsUpsert (l : List (String × Nat)) (k : String) (v : Nat) (k' : String) :
    assocGet (jsUpsert l k v) k' = if k = k' then some v else assocGet l k' := by
  induction l with
  | nil =>
    by_cases h : k = k' <;> simp [jsUpsert, assocGet, h]
  | cons a rest ih =>
    obtain ⟨ak, av⟩ := a
    rw [jsUpsert]
    by_cases ha : ak = k
    · rw [if_pos ha]
      subst ha
      by_cases h' : ak = k'
      · subst h'
        simp [assocGet, List.find?_cons]
      · simp [assocGet, List.find?_cons, h']
    · rw [if_neg ha]
      by_cases h' : ak = k'
      · subst h'
        have hk : ¬ k = ak := fun hh => ha hh.symm
        simp [assocGet, List.find?_cons, hk]
      · simp only [assocGet, List.find?_cons]
        have hb : ((ak, av).1 == k') = false := by
          simp [h']
        rw [hb]
        simpa [assocGet] using ih

/-- The counter the loop would use next, after it has recorded one more
occurrence of the raw key `k`. -/
theorem dictNext_upsert (keys : List (String × Nat)) (k k' : String) :
    dictNext (jsUpsert keys k (dictNext keys k)) k' =
      if k = k' then dictNext keys k' + 1 else dictNext keys k' := by
  unfold dictNext
  rw [assocGet_jsUpsert]
  by_cases h : k = k'
  · subst h
    cases assocGet keys k <;> simp
  · rw [if_neg h, if_neg h]

/-- Occurrence count over a cons cell. -/
theorem keyOccCount_cons (c : Chrono) (pre : List Chrono) (k : String) :
    keyOccCount (c :: pre) k =
      (if truthy c.key && (jsToString c.key == k) then 1 else 0) + keyOccCount pre k := by
  unfold keyOccCount
  rw [List.filter_cons]
  split
  · simp [Nat.add_comm]
  · simp

/-- Unkeyed count over a cons cell. -/
theorem unkeyedCount_cons (c : Chrono) (pre : List Chrono) :
    unkeyedCount (c :: pre) = (if truthy c.key then 0 else 1) + unkeyedCount pre := by
  unfold unkeyedCount
  rw [List.filter_cons]
  split
  · rename_i h
    simp at h
    simp [h, Nat.add_comm]
  · rename_i h
    simp at h
    simp [h]

/-- The keys assigned by the `Jsonify` loop do not depend on the output
object being built; they follow the keys-only recursion. -/
theorem jsonifyGo_snd_keys (uuid : Nat → String) :
    ∀ (cs : List Chrono) (json : List (String × ChronoJson)) (keys : List (String × Nat))
      (uc : Nat),
      ((jsonifyGo uuid cs json keys uc).2).map (fun c => jsToString c.key) =
        assignedKeysGo uuid cs keys uc := by
  intro cs
  induction cs with
  | nil => intro json keys uc; rfl
  | cons c rest ih =>
    intro json keys uc
    rw [jsonifyGo, assignedKeysGo]
    by_cases htr : truthy c.key
    · rw [if_pos htr, if_pos htr]
      exact congrArg₂ (fun (a : String) (l : List String) => a :: l) rfl (ih _ _ _)
    · rw [if_neg htr, if_neg htr]
      exact congrArg₂ (fun (a : String) (l : List String) => a :: l) rfl (ih _ _ _)

/-- Closed form of the keys-only recursion: the i-th assigned key combines
the stored counter state with the occurrence count inside the processed
prefix. -/
theorem assignedKeysGo_formula (uuid : Nat → String) :
    ∀ (cs : List Chrono) (keys : List (String × Nat)) (uc : Nat),
      assignedKeysGo uuid cs keys uc =
        (List.range cs.length).map (fun i =>
          if truthy (cs.getD i default).key then
            toString (dictNext keys (jsToString (cs.getD i default).key) +
                keyOccCount (cs.take i) (jsToString (cs.getD i default).key)) ++
              jsToString (cs.getD i default).key
          else uuid (uc + unkeyedCount (cs.take i))) := by
  intro cs
  induction cs with
  | nil => intro keys uc; rfl
  | cons c rest ih =>
    intro keys uc
    rw [assignedKeysGo]
    have hlen : (c :: rest).length = rest.length + 1 := rfl
    rw [hlen, List.range_succ_eq_map, List.map_cons, List.map_map]
    by_cases htr : truthy c.key
    · rw [if_pos htr]
      refine congrArg₂ (fun (a : String) (l : List String) => a :: l) ?_ ?_
      · simp [htr, keyOccCount]
      · rw [ih]
        apply List.map_congr_left
        intro i _
        show _ =
          (if truthy ((c :: rest).getD (i + 1) default).key then
            toString (dictNext keys (jsToString ((c :: rest).getD (i + 1) default).key) +
                keyOccCount ((c :: rest).take (i + 1))
                  (jsToString ((c :: rest).getD (i + 1) default).key)) ++
              jsToString ((c :: rest).getD (i + 1) default).key
          else uuid (uc + unkeyedCount ((c :: rest).take (i + 1))))
        rw [List.getD_cons_succ, List.take_succ_cons]
        by_cases hti : truthy (rest.getD i default).key
        · rw [if_pos hti, if_pos hti]
          rw [dictNext_upsert, keyOccCount_cons]
          by_cases hk : jsToString c.key = jsToString (rest.getD i default).key
          · rw [if_pos hk, if_pos (by simp [htr, hk])]
            rw [Nat.add_assoc, Nat.add_comm 1]
          · rw [if_neg hk,
              if_neg (by rw [htr, Bool.true_and]; exact fun hh => hk (eq_of_beq hh))]
            rw [Nat.zero_add]
        · rw [if_neg hti, if_neg hti]
          rw [unkeyedCount_cons, if_pos htr, Nat.zero_add]
    · rw [if_neg htr]
      refine congrArg₂ (fun (a : String) (l : List String) => a :: l) ?_ ?_
      · simp [htr, unkeyedCount]
      · rw [ih]
        apply List.map_congr_left
        intro i _
        show _ =
          (if truthy ((c :: rest).getD (i + 1) default).key then
            toString (dictNext keys (jsToString ((c :: rest).getD (i + 1) default).key) +
                keyOccCount ((c :: rest).take (i + 1))
                  (jsToString ((c :: rest).getD (i + 1) default).key)) ++
              jsToString ((c :: rest).getD (i + 1) default).key
          else uuid (uc + unkeyedCount ((c :: rest).take (i + 1))))
        rw [List.getD_cons_succ, List.take_succ_cons]
        by_cases hti : truthy (rest.getD i default).key
        · rw [if_pos hti, if_pos hti]
          rw [keyOccCount_cons, if_neg (by simp [htr]), Nat.zero_add]
        · rw [if_neg hti, if_neg hti]
          rw [unkeyedCount_cons, if_neg htr]
          rw [Nat.add_assoc, Nat.add_comm 1]

/-- Claim C1 (amended): every event with a truthy key receives the
counter-prefixed key - the zero-based count of earlier events sharing its
raw key, rendered in decimal and prepended to the raw key (so three events
keyed "A" come out as "0A", "1A", "2A", and a uniquely keyed event still
gets a "0" prefix) - while events with a falsy key receive the next
generated UUID; the assigned keys are not in general pairwise distinct. -/
theorem jsonify_assigned_keys_eq_spec (cs : List Chrono) (uuid : Nat → String) :
    jsonifyAssignedKeys cs uuid = jsonifySpecKeys cs uuid := by
  unfold jsonifyAssignedKeys ChronoSet.Jsonify jsonifySpecKeys
  rw [jsonifyGo_snd_keys, assignedKeysGo_formula]
  apply List.map_congr_left
  intro i _
  by_cases htr : truthy (cs.getD i default).key <;>
    simp [htr, dictNext, assocGet]

/-- Merged pair events satisfy the duration invariant by construction. -/
theorem durInv_merge (s e : Chrono) : DurationInv (mergeChronos s e) := rfl

/-- The placeholder event satisfies the duration invariant. -/
theorem durInv_default : DurationInv (default : Chrono) := rfl

/-- Setting an invariant-satisfying event into an invariant-satisfying
store preserves the store-wide invariant. -/
theorem durInv_set (store : List Chrono) (sid : Nat) (m : Chrono) (hm : DurationInv m)
    (h : ∀ i, DurationInv (store.getD i default)) :
    ∀ i, DurationInv ((store.set sid m).getD i default) := by
  intro i
  rw [List.getD_eq_getElem?_getD, List.getElem?_set]
  by_cases hsi : sid = i
  · rw [if_pos hsi]
    by_cases hlen : sid < store.length
    · rw [if_pos hlen]
      exact hm
    · rw [if_neg hlen]
      exact durInv_default
  · rw [if_neg hsi, ← List.getD_eq_getElem?_getD]
    exact h i

/-- A store built from an invariant-satisfying event list satisfies the
store-wide invariant. -/
theorem durInv_getD_of_forall (cs : List Chrono) (h : ∀ c ∈ cs, DurationInv c) :
    ∀ i, DurationInv (cs.getD i default) := by
  intro i
  rw [List.getD_eq_getElem?_getD]
  cases hi : cs[i]? with
  | none => exact durInv_default
  | some c =>
    obtain ⟨hlt, hc⟩ := List.getElem?_eq_some.mp hi
    exact hc ▸ h _ (List.getElem_mem hlt)

/-- The pairing loop preserves the store-wide duration invariant: its only
store mutation is writing a merged event. -/
theorem pairLoop_durInv (arr : List Nat) :
    ∀ (starts : List Nat) (store : List Chrono) (ends : List Nat)
      (store2 : List Chrono) (ends2 : List Nat),
      (∀ i, DurationInv (store.getD i default)) →
      pairLoop arr starts store ends = Except.ok (store2, ends2) →
      ∀ i, DurationInv (store2.getD i default) := by
  intro starts
  induction starts with
  | nil =>
    intro store ends store2 ends2 hinv hok
    have h := hok
    rw [pairLoop] at h
    obtain ⟨rfl, rfl⟩ : store = store2 ∧ ends = ends2 := by simpa using h
    exact hinv
  | cons sid rest ih =>
    intro store ends store2 ends2 hinv hok
    rw [pairLoop] at hok
    cases hce : claimEnd (jsIndexOf arr) (jsIndexOf arr sid) ends with
    | mk copt ends1 =>
      rw [hce] at hok
      cases copt with
      | none => exact absurd hok (by simp)
      | some eid =>
        exact ih _ _ _ _ (durInv_set _ _ _ (durInv_merge _ _) hinv) hok

/-- Zeta-expanded form of `fspCore`, for case analysis on the pairing
loop. -/
theorem fspCore_eq (store : List Chrono) (arr : List Nat)
    (startKey endKey : List (String × JsVal)) :
    fspCore store arr startKey endKey =
      match pairLoop arr (applyFilterDict store startKey arr) store
          (applyFilterDict store (resolveEndKey startKey endKey) arr) with
      | Except.error e => Except.error e
      | Except.ok (store2, _) =>
        Except.ok (store2,
          (sortDesc (getIndecies (applyFilterDict store startKey arr) arr ++
            getIndecies (applyFilterDict store (resolveEndKey startKey endKey) arr) arr)).foldl
              jsSpliceRemove arr,
          applyFilterDict store startKey arr) := rfl

/-- Claim C8: `duration = end - start` holds at construction (with `end`
defaulted to `start` when the supplied end is `null` or `0`), and the
invariant is preserved by `FindSuccessivePairs`: if every input event
satisfies it, every event of the resulting collection does - the merge
recomputes `duration` from the new `end`. -/
theorem duration_invariant :
    (∀ (type key title description start endArg tags : JsVal) (errors : List ErrEntry),
      DurationInv (Chrono.make type key title description start endArg tags errors).1
      ∧ ((strictEq endArg JsVal.vNull || strictEq endArg (JsVal.vNum 0)) = true →
          (Chrono.make type key title description start endArg tags errors).1.«end» =
            (Chrono.make type key title description start endArg tags errors).1.start))
    ∧ (∀ (cs : List Chrono) (startKey endKey : List (String × JsVal))
        (out pairs : List Chrono),
        (∀ c ∈ cs, DurationInv c) →
        ChronoSet.FindSuccessivePairs cs startKey endKey = Except.ok (out, pairs) →
        ∀ c ∈ out, DurationInv c) := by
  constructor
  · intro type key title description start endArg tags errors
    constructor
    · rfl
    · intro hcond
      show (if (strictEq endArg JsVal.vNull || strictEq endArg (JsVal.vNum 0)) then start
        else endArg) = start
      rw [if_pos hcond]
  · intro cs startKey endKey out pairs hinv hok
    unfold ChronoSet.FindSuccessivePairs at hok
    rw [fspCore_eq] at hok
    cases hpl : pairLoop (List.range cs.length)
        (applyFilterDict cs startKey (List.range cs.length)) cs
        (applyFilterDict cs (resolveEndKey startKey endKey) (List.range cs.length)) with
    | error e =>
      rw [hpl] at hok
      exact absurd hok (by simp)
    | ok p =>
      obtain ⟨store2, ends2⟩ := p
      rw [hpl] at hok
      have hstore : ∀ i, DurationInv (store2.getD i default) :=
        pairLoop_durInv _ _ _ _ _ _ (durInv_getD_of_forall cs hinv) hpl
      dsimp only at hok
      rw [Except.ok.injEq, Prod.mk.injEq] at hok
      obtain ⟨rfl, rfl⟩ := hok
      intro c hc
      obtain ⟨i, _, hci⟩ := List.mem_map.mp hc
      exact hci ▸ hstore i

/-- The iterated per-key filtering of a filter dictionary is the filter by
its conjunction predicate. -/
theorem applyFilterDict_eq_filter (store : List Chrono) (dict : List (String × JsVal)) :
    ∀ (l : List Nat),
      applyFilterDict store dict l =
        l.filter (fun i => matchesDict dict (store.getD i default)) := by
  unfold applyFilterDict matchesDict
  induction dict with
  | nil =>
    intro l
    simp
  | cons kv rest ih =>
    intro l
    rw [List.foldl_cons, ih, List.filter_filter]
    apply List.filter_congr
    intro i _
    rw [List.all_cons]
    exact Bool.and_comm _ _

/-- Selecting the positions of a filtered range and reading them back
yields the filtered list. -/
theorem range_filter_map_getD (cs : List Chrono) (p : Chrono → Bool) :
    ((List.range cs.length).filter (fun i => p (cs.getD i default))).map
      (fun i => cs.getD i default) = cs.filter p := by
  induction cs with
  | nil => rfl
  | cons c rest ih =>
    have h1 : List.range (c :: rest).length = 0 :: (List.range rest.length).map Nat.succ := by
      rw [show (c :: rest).length = rest.length + 1 from rfl, List.range_succ_eq_map]
    rw [h1, List.filter_cons]
    have hfc : List.filter (fun i => p ((c :: rest).getD i default))
        ((List.range rest.length).map Nat.succ) =
        (List.filter (fun i => p (rest.getD i default)) (List.range rest.length)).map Nat.succ := by
      rw [List.filter_map]
      exact congrArg _ (List.filter_congr (fun i _ => by
        show p ((c :: rest).getD (Nat.succ i) default) = p (rest.getD i default)
        rw [List.getD_cons_succ]))
    have hmc : ∀ (X : List Nat),
        (X.map Nat.succ).map (fun i => (c :: rest).getD i default) =
          X.map (fun i => rest.getD i default) := by
      intro X
      rw [List.map_map]
      exact List.map_congr_left (fun i _ => by
        show (c :: rest).getD (Nat.succ i) default = rest.getD i default
        rw [List.getD_cons_succ])
    rw [show (c :: rest).getD 0 default = c from rfl, List.filter_cons]
    by_cases hp : p c
    · rw [if_pos hp, if_pos hp, List.map_cons, hfc, hmc, ih]
      rfl
    · rw [if_neg hp, if_neg hp, hfc, hmc, ih]

/-- Erasing strictly descending in-range positions only touches the
prefix. -/
theorem foldl_eraseIdx_append (ps : List Nat) :
    ∀ (l l' : List α), ps.Pairwise (· > ·) → (∀ i ∈ ps, i < l.length) →
      ps.foldl (fun acc i => acc.eraseIdx i) (l ++ l') =
        ps.foldl (fun acc i => acc.eraseIdx i) l ++ l' := by
  induction ps with
  | nil => intro l l' _ _; rfl
  | cons i rest ih =>
    intro l l' hpw hbound
    rw [List.foldl_cons, List.foldl_cons,
      List.eraseIdx_append_of_lt_length (hbound i (List.mem_cons_self i rest)) l']
    apply ih _ _ hpw.of_cons
    intro j hj
    have hji : i > j := (List.pairwise_cons.mp hpw).1 j hj
    have hil : i < l.length := hbound i (List.mem_cons_self i rest)
    rw [List.length_eraseIdx, if_pos hil]
    omega

/-- Splicing out the positions of a range filter, largest first, leaves
exactly the complement. -/
theorem spliceRange (p : Nat → Bool) :
    ∀ (n : Nat),
      (((List.range n).filter p).reverse).foldl (fun acc i => acc.eraseIdx i) (List.range n) =
        (List.range n).filter (fun i => !p i) := by
  intro n
  induction n with
  | zero => rfl
  | succ n ih =>
    rw [List.range_succ, List.filter_append, List.filter_append]
    by_cases hp : p n
    · rw [show List.filter p [n] = [n] from by simp [hp],
        show List.filter (fun i => !p i) [n] = ([] : List Nat) from by simp [hp],
        List.reverse_append, List.append_nil]
      rw [show (([n] : List Nat).reverse ++ (List.filter p (List.range n)).reverse) =
        n :: (List.filter p (List.range n)).reverse from rfl]
      rw [List.foldl_cons]
      have h1 : (List.range n ++ [n]).eraseIdx n = List.range n := by
        rw [List.eraseIdx_append_of_length_le (le_of_eq (List.length_range n))]
        simp
      rw [h1, ih]
    · rw [show List.filter p [n] = ([] : List Nat) from by simp [hp],
        show List.filter (fun i => !p i) [n] = [n] from by simp [hp],
        List.append_nil]
      have hpw : ((List.range n).filter p).reverse.Pairwise (· > ·) := by
        rw [List.pairwise_reverse]
        exact (List.pairwise_lt_range n).filter p
      have hb : ∀ i ∈ ((List.range n).filter p).reverse, i < (List.range n).length := by
        intro i hi
        rw [List.length_range]
        exact List.mem_range.mp (List.mem_filter.mp (List.mem_reverse.mp hi)).1
      rw [foldl_eraseIdx_append _ _ _ hpw hb, ih]

/-- Finding a shifted value in a shifted list. -/
theorem idxOfAux_map_succ (x : Nat) (l : List Nat) :
    idxOfAux (x + 1) (l.map Nat.succ) = idxOfAux x l := by
  induction l with
  | nil => rfl
  | cons y ys ih =>
    rw [List.map_cons]
    show (if y.succ = x + 1 then some 0 else (idxOfAux (x + 1) (ys.map Nat.succ)).map (· + 1)) = _
    rw [ih]
    by_cases h : y = x
    · rw [if_pos (by omega), idxOfAux, if_pos h]
    · rw [if_neg (by omega), idxOfAux, if_neg h]

/-- `indexOf` of an in-range value on a range. -/
theorem idxOfAux_range (x : Nat) :
    ∀ (n : Nat), x < n → idxOfAux x (List.range n) = some x := by
  induction x with
  | zero =>
    intro n hn
    obtain ⟨m, rfl⟩ : ∃ m, n = m + 1 := ⟨n - 1, by omega⟩
    rw [List.range_succ_eq_map]
    rfl
  | succ x ih =>
    intro n hn
    obtain ⟨m, rfl⟩ : ∃ m, n = m + 1 := ⟨n - 1, by omega⟩
    rw [List.range_succ_eq_map]
    show (if 0 = x + 1 then some 0 else (idxOfAux (x + 1) ((List.range m).map Nat.succ)).map (· + 1)) = _
    rw [if_neg (by omega), idxOfAux_map_succ, ih m (by omega)]
    rfl

/-- `Array.prototype.indexOf` of an in-range value on a range. -/
theorem jsIndexOf_range (n x : Nat) (h : x < n) :
    jsIndexOf (List.range n) x = (x : Int) := by
  unfold jsIndexOf
  rw [idxOfAux_range x n h]

/-- On the original array the recorded removal positions of a filtered
sublist are its elements themselves. -/
theorem getIndecies_filter_range (n : Nat) (p : Nat → Bool) :
    getIndecies ((List.range n).filter p) (List.range n) =
      ((List.range n).filter p).map (fun i => Int.ofNat i) := by
  unfold getIndecies
  apply List.map_congr_left
  intro i hi
  exact jsIndexOf_range n i (List.mem_range.mp (List.mem_filter.mp hi).1)

/-- Inserting below every element appends at the end. -/
theorem insertDesc_of_gt (x : Int) (l : List Int) (h : ∀ y ∈ l, x < y) :
    insertDesc x l = l ++ [x] := by
  induction l with
  | nil => rfl
  | cons y ys ih =>
    rw [insertDesc, if_neg (by have := h y (List.mem_cons_self y ys); omega)]
    rw [ih (fun z hz => h z (List.mem_cons_of_mem y hz))]
    rfl

/-- Descending sort of a strictly ascending list is its reverse. -/
theorem sortDesc_of_ascending : ∀ (l : List Int), l.Pairwise (· < ·) → sortDesc l = l.reverse := by
  intro l
  induction l with
  | nil => intro; rfl
  | cons x xs ih =>
    intro h
    show insertDesc x (sortDesc xs) = (x :: xs).reverse
    rw [ih (List.pairwise_cons.mp h).2,
      insertDesc_of_gt x xs.reverse
        (fun y hy => (List.pairwise_cons.mp h).1 y (List.mem_reverse.mp hy))]
    rw [List.reverse_cons]

/-- A JS `splice` at a nonnegative index is `eraseIdx`. -/
theorem jsSpliceRemove_ofNat (l : List α) (i : Nat) :
    jsSpliceRemove l ((i : Nat) : Int) = l.eraseIdx i := by
  unfold jsSpliceRemove
  rw [if_neg (by omega)]
  simp

/-- Claim C2 (amended): when both filter subsequences are empty,
`FindSuccessivePairs` returns no pairs and leaves the collection unchanged;
when only the start subsequence is empty, it still returns no pairs but
removes every end-matching event from the collection; when the start
subsequence is non-empty and the end subsequence is empty, the call throws
a `TypeError` instead of returning. -/
theorem fsp_empty_filter_cases (cs : List Chrono) (startKey endKey : List (String × JsVal)) :
    ((∀ c ∈ cs, matchesDict startKey c = false) →
      (∀ c ∈ cs, matchesDict (resolveEndKey startKey endKey) c = false) →
      ChronoSet.FindSuccessivePairs cs startKey endKey = Except.ok (cs, []))
    ∧ ((∀ c ∈ cs, matchesDict startKey c = false) →
        ChronoSet.FindSuccessivePairs cs startKey endKey =
          Except.ok (cs.filter (fun c => !matchesDict (resolveEndKey startKey endKey) c), []))
    ∧ ((∃ c ∈ cs, matchesDict startKey c = true) →
        (∀ c ∈ cs, matchesDict (resolveEndKey startKey endKey) c = false) →
        ChronoSet.FindSuccessivePairs cs startKey endKey = Except.error ()) := by
  have hfilterEmpty : ∀ (q : Chrono → Bool), (∀ c ∈ cs, q c = false) →
      (List.range cs.length).filter (fun i => q (cs.getD i default)) = [] := by
    intro q hq
    rw [List.filter_eq_nil_iff]
    intro i hi
    have hilt : i < cs.length := List.mem_range.mp hi
    rw [List.getD_eq_getElem cs default hilt, hq cs[i] (List.getElem_mem hilt)]
    exact Bool.false_ne_true
  have hMain : (∀ c ∈ cs, matchesDict startKey c = false) →
      ChronoSet.FindSuccessivePairs cs startKey endKey =
        Except.ok (cs.filter (fun c => !matchesDict (resolveEndKey startKey endKey) c), []) := by
    intro hs
    unfold ChronoSet.FindSuccessivePairs
    rw [fspCore_eq, applyFilterDict_eq_filter, applyFilterDict_eq_filter, hfilterEmpty _ hs]
    show Except.ok
        (((sortDesc (getIndecies ([] : List Nat) (List.range cs.length) ++
            getIndecies ((List.range cs.length).filter
              (fun i => matchesDict (resolveEndKey startKey endKey) (cs.getD i default)))
              (List.range cs.length))).foldl jsSpliceRemove (List.range cs.length) ++
          ([] : List Nat)).map (fun i => cs.getD i default),
          ([] : List Chrono)) =
      Except.ok (cs.filter (fun c => !matchesDict (resolveEndKey startKey endKey) c), [])
    rw [show getIndecies ([] : List Nat) (List.range cs.length) = ([] : List Int) from rfl,
      List.nil_append, getIndecies_filter_range]
    have hasc : (((List.range cs.length).filter
        (fun i => matchesDict (resolveEndKey startKey endKey) (cs.getD i default))).map
          (fun i => Int.ofNat i)).Pairwise (· < ·) :=
      List.Pairwise.map (fun i => Int.ofNat i) (fun a b hab => Int.ofNat_lt.mpr hab)
        ((List.pairwise_lt_range cs.length).filter _)
    rw [sortDesc_of_ascending _ hasc, ← List.map_reverse, List.foldl_map,
      show (fun (acc : List Nat) (i : Nat) => jsSpliceRemove acc (Int.ofNat i)) =
        (fun (acc : List Nat) (i : Nat) => acc.eraseIdx i) from
        funext (fun acc => funext (fun i => jsSpliceRemove_ofNat acc i)),
      spliceRange, List.append_nil,
      range_filter_map_getD cs (fun c => !matchesDict (resolveEndKey startKey endKey) c)]
  refine ⟨?_, hMain, ?_⟩
  · intro hs he
    rw [hMain hs]
    rw [List.filter_eq_self.mpr (fun c hc => by rw [he c hc]; rfl)]
  · intro hex he
    obtain ⟨c0, hc0, hm⟩ := hex
    unfold ChronoSet.FindSuccessivePairs
    rw [fspCore_eq, applyFilterDict_eq_filter, applyFilterDict_eq_filter, hfilterEmpty _ he]
    cases hsc : (List.range cs.length).filter
        (fun i => matchesDict startKey (cs.getD i default)) with
    | nil =>
      have h2 := range_filter_map_getD cs (matchesDict startKey)
      rw [hsc] at h2
      simp only [List.map_nil] at h2
      have := List.filter_eq_nil_iff.mp h2.symm c0 hc0
      exact absurd hm this
    | cons s0 srest =>
      rfl

/-- Claim C2 (counterexample): with the single event `stop "A"@50`, the
start subsequence is empty, yet `FindSuccessivePairs` removes the
end-matching event (the collection becomes empty); and with the single
event `start "A"@10` the end subsequence is empty and the call throws a
`TypeError` instead of returning - both contradicting "no pairs form and
no events are removed". -/
theorem fsp_empty_filters_still_mutate :
    ChronoSet.FindSuccessivePairs [evTD "stop" "A" 50] startFilterType endFilterType =
      Except.ok ([], [])
    ∧ [evTD "stop" "A" 50].length = 1
    ∧ ChronoSet.FindSuccessivePairs [evTD "start" "A" 10] startFilterType endFilterType =
      Except.error () :=
  ⟨rfl, rfl, rfl⟩

/-- Witness for the amended claim C2 at a concrete input: one end-matching
event, an empty start subsequence, and the ends removed from the result. -/
theorem fsp_empty_filter_cases_witness :
    ChronoSet.FindSuccessivePairs [evTD "stop" "A" 50] startFilterType endFilterType =
      Except.ok ([evTD "stop" "A" 50].filter
        (fun c => !matchesDict (resolveEndKey startFilterType endFilterType) c), []) :=
  (fsp_empty_filter_cases [evTD "stop" "A" 50] startFilterType endFilterType).2.1
    (fun c hc => by rw [List.mem_singleton] at hc; exact hc ▸ rfl)

/-- Witness for claim C8 at concrete inputs: a constructed event with a
null end defaults `end` to `start`, and the invariant survives a
`FindSuccessivePairs` call on a singleton collection. -/
theorem duration_invariant_witness :
    (Chrono.make JsVal.vNull JsVal.vNull JsVal.vNull JsVal.vNull (JsVal.vNum 5) JsVal.vNull
        JsVal.vNull []).1.«end» =
      (Chrono.make JsVal.vNull JsVal.vNull JsVal.vNull JsVal.vNull (JsVal.vNum 5) JsVal.vNull
        JsVal.vNull []).1.start
    ∧ DurationInv (evTD "start" "A" 10) :=
  ⟨(duration_invariant.1 JsVal.vNull JsVal.vNull JsVal.vNull JsVal.vNull (JsVal.vNum 5)
      JsVal.vNull JsVal.vNull []).2 rfl,
    duration_invariant.2 [evTD "start" "A" 10] [("type", JsVal.vStr "zzz")]
      [("type", JsVal.vStr "zzz")] [evTD "start" "A" 10] []
      (fun c hc => by rw [List.mem_singleton] at hc; exact hc ▸ rfl) rfl
      (evTD "start" "A" 10) (List.mem_singleton.mpr rfl)⟩
